import Mathlib

/-!
Verification of the MVCC-aware block storage directory layer of the
pg_search index (`src/pg_search/src/index/directory/utils.rs`).

Shallow embedding conventions:
* A page chain is a `List (List α)`: the outer list is the chain of pages
  in next-pointer order, the inner list the entries of one page in offset
  order.  Block numbers and offset numbers become list indices.
* `pg_sys.TransactionId` is `Nat`, with `InvalidTransactionId = 0` as in
  Postgres.  Opstamps are `Nat`.  A tantivy `SegmentId` (a 128-bit UUID)
  is a `Nat`.
* The storage primitives (`block.rs`: the entry structs, the `MVCCEntry`
  trait, `LinkedItemList`, `LinkedBytesList`) are not part of the given
  sources; those definitions are modelled from the spec and carry a
  `Modelled from the spec:` doc comment.  Everything else is translated
  from `utils.rs`.
-/

namespace Retake

/-- InvalidTransactionId of Postgres, which is the numeral 0. -/
def invalidTransactionId : Nat := 0

/-- Modelled from the spec: a SegmentMetaEntry record
`(segment_id, max_doc, opstamp, xmin, xmax)` of the SegmentMetas chain
(`block.rs` is not among the given sources; layout from spec section 3). -/
structure SegmentMetaEntry where
  segment_id : Nat
  max_doc : Nat
  opstamp : Nat
  xmin : Nat
  xmax : Nat
deriving DecidableEq, Repr

/-- Modelled from the spec: a DeleteMetaEntry record
`(segment_id, num_deleted_docs, opstamp, xmax)` of the DeleteMetas chain. -/
structure DeleteMetaEntry where
  segment_id : Nat
  num_deleted_docs : Nat
  opstamp : Nat
  xmax : Nat
deriving DecidableEq, Repr

/-- Modelled from the spec: a DirectoryEntry record
`(path, chain_start, xmin, xmax)` of the Directory chain. -/
structure DirectoryEntry where
  path : String
  start : Nat
  xmin : Nat
  xmax : Nat
deriving DecidableEq, Repr

/-- Modelled from the spec: `MVCCEntry::deleted()` — an entry is
tombstoned exactly when its `xmax` has been set to a valid transaction id. -/
def SegmentMetaEntry.deleted (e : SegmentMetaEntry) : Bool :=
  e.xmax != invalidTransactionId

/-- Modelled from the spec: `MVCCEntry::deleted()` for delete-meta entries. -/
def DeleteMetaEntry.deleted (e : DeleteMetaEntry) : Bool :=
  e.xmax != invalidTransactionId

/-- Modelled from the spec: `MVCCEntry::deleted()` for directory entries. -/
def DirectoryEntry.deleted (e : DirectoryEntry) : Bool :=
  e.xmax != invalidTransactionId

/-- Modelled from the spec: an MVCC snapshot.  `visibleTxns` is the set
of transactions that are committed and whose effects the snapshot sees;
`committedTxns` is the set of committed transactions; `start` is the
snapshot's start point.  Finite lists keep the model executable. -/
structure Snapshot where
  start : Nat
  visibleTxns : List Nat
  committedTxns : List Nat
deriving Repr

/-- A transaction id is committed-and-visible to the snapshot. -/
def Snapshot.visibleTxn (s : Snapshot) (t : Nat) : Bool :=
  s.visibleTxns.contains t

/-- Well-formedness of the snapshot model: a committed transaction that
finished strictly before the snapshot's start point is visible to it. -/
def Snapshot.WellFormed (s : Snapshot) : Prop :=
  ∀ t ∈ s.committedTxns, t ≠ invalidTransactionId → t < s.start →
    t ∈ s.visibleTxns

instance (s : Snapshot) : Decidable s.WellFormed := by
  unfold Snapshot.WellFormed; infer_instance

/-- Modelled from the spec: `MVCCEntry::visible(snapshot)` — the standard
MVCC rule: `xmin` is committed and visible to the snapshot, and `xmax` is
either invalid or not visible to the snapshot. -/
def SegmentMetaEntry.visible (e : SegmentMetaEntry) (s : Snapshot) : Bool :=
  s.visibleTxn e.xmin && (e.xmax == invalidTransactionId || !s.visibleTxn e.xmax)

/-- Projection of a tantivy `SegmentMeta` as consumed by
`get_deleted_ids`, `save_new_metas` and `save_delete_metas`: its id, its
`max_doc`, its deleted-document count and its delete opstamp.
`num_docs()` is derived as in tantivy. -/
structure TantivySegment where
  id : Nat
  max_doc : Nat
  num_deleted_docs : Nat
  delete_opstamp : Option Nat
deriving DecidableEq, Repr

/-- Number of alive documents of a tantivy segment (tantivy:
`max_doc - num_deleted_docs`). -/
def TantivySegment.num_docs (s : TantivySegment) : Nat :=
  s.max_doc - s.num_deleted_docs

/-- Translation of `get_deleted_ids(meta, previous_meta)` from
`utils.rs`: the ids of segments of `meta` with zero docs, together with
the ids of segments of `previous_meta` whose id does not occur in `meta`.
The Rust `HashSet` union becomes list concatenation (set semantics are
stated via membership). -/
def get_deleted_ids (meta previous_meta : List TantivySegment) : List Nat :=
  let meta_ids := meta.map (fun s => s.id)
  let empty_ids := (meta.filter (fun s => s.num_docs == 0)).map (fun s => s.id)
  let merged_ids :=
    (previous_meta.filter (fun s => !meta_ids.contains s.id)).map (fun s => s.id)
  empty_ids ++ merged_ids

/-- Hexadecimal digit test, as in the uuid crate's parser. -/
def isHexDigitChar (c : Char) : Bool :=
  c.isDigit || ('a' ≤ c && c ≤ 'f') || ('A' ≤ c && c ≤ 'F')

/-- Value of a single hexadecimal digit. -/
def hexVal (c : Char) : Nat :=
  if c.isDigit then c.toNat - '0'.toNat
  else if 'a' ≤ c && c ≤ 'f' then c.toNat - 'a'.toNat + 10
  else c.toNat - 'A'.toNat + 10

/-- Numeric value of a big-endian list of hexadecimal digits. -/
def hexListToNat (cs : List Char) : Nat :=
  cs.foldl (fun acc c => 16 * acc + hexVal c) 0

/-- Modelled from the uuid crate (an external dependency, not repository
code): `Uuid::parse_str`, restricted to the two forms that occur for
segment components — the 32-hex-digit simple form and the hyphenated
8-4-4-4-12 form. -/
def parseUuid (s : String) : Option Nat :=
  let cs := s.toList
  if cs.length == 32 && cs.all isHexDigitChar then
    some (hexListToNat cs)
  else if cs.length == 36 then
    let hexPart := cs.filter (fun c => c ≠ '-')
    if (cs[8]? == some '-') && (cs[13]? == some '-') && (cs[18]? == some '-')
        && (cs[23]? == some '-') && hexPart.length == 32
        && hexPart.all isHexDigitChar then
      some (hexListToNat hexPart)
    else none
  else none

/-- Position of the first `'.'` in a character list, mirroring Rust's
`str::find('.')`. -/
def findDotPos : List Char → Option Nat
  | [] => none
  | c :: rest =>
    if c = '.' then some 0 else (findDotPos rest).map (fun p => p + 1)

/-- Translation of `TryFrom<SegmentComponentPath> for SegmentComponentId`
from `utils.rs`: find the first `'.'`; on success parse the prefix before
it as a UUID (`SegmentId::from_uuid_string`), otherwise fail.  `Result`
becomes `Option` (the error payloads are messages only). -/
def SegmentComponentId.try_from (path : String) : Option Nat :=
  match findDotPos path.toList with
  | some pos => parseUuid (String.mk (path.toList.take pos))
  | none => none

/-- Modelled from the spec: `LinkedBytesList::write` — writing to a
byte-stream chain is a no-op when the chain is already non-empty
(write-once semantics); the chain state is its byte contents. -/
def bytesListWrite (chain bytes : List Nat) : List Nat :=
  if chain.isEmpty then bytes else chain

/-- Translation of `save_schema` from `utils.rs`, acting on the Schema
chain state: if the chain is empty, write the serialized schema bytes
(`serde_json::to_vec` happens at the caller boundary; its output is the
`bytes` argument).  Returns the new chain state. -/
def save_schema (chain : List Nat) (bytes : List Nat) : List Nat :=
  if chain.isEmpty then bytesListWrite chain bytes else chain

/-- Translation of `save_settings` from `utils.rs`, identical in shape to
`save_schema` but over the Settings chain. -/
def save_settings (chain : List Nat) (bytes : List Nat) : List Nat :=
  if chain.isEmpty then bytesListWrite chain bytes else chain

/-- Entries appended by `save_delete_metas` (`utils.rs`): one
`DeleteMetaEntry` per segment of `meta` whose `delete_opstamp()` equals
the commit's `opstamp`, born with `xmax = InvalidTransactionId`. -/
def save_delete_metas_entries (meta : List TantivySegment) (opstamp : Nat) :
    List DeleteMetaEntry :=
  (meta.filter (fun segment =>
      match segment.delete_opstamp with
      | some delete_opstamp => delete_opstamp == opstamp
      | none => false)).map
    (fun segment =>
      { segment_id := segment.id
        num_deleted_docs := segment.num_deleted_docs
        opstamp := segment.delete_opstamp.getD 0
        xmax := invalidTransactionId })

/-- Translation of `save_delete_metas` from `utils.rs`:
`LinkedItemList::add_items` appends the new entries to the DeleteMetas
chain (the chain is viewed here in entry order, pages flattened). -/
def save_delete_metas (chain : List DeleteMetaEntry)
    (meta : List TantivySegment) (opstamp : Nat) : List DeleteMetaEntry :=
  chain ++ save_delete_metas_entries meta opstamp

/-- Entries appended by `save_new_metas` (`utils.rs`): one
`SegmentMetaEntry` per segment of `meta` whose id is absent from
`previous_meta` and whose `num_docs()` is positive, born with the given
`xmin` and `xmax = InvalidTransactionId`. -/
def save_new_metas_entries (meta previous_meta : List TantivySegment)
    (xmin opstamp : Nat) : List SegmentMetaEntry :=
  let previous_ids := previous_meta.map (fun s => s.id)
  (meta.filter (fun s => !previous_ids.contains s.id && s.num_docs > 0)).map
    (fun s =>
      { segment_id := s.id
        max_doc := s.max_doc
        opstamp := opstamp
        xmin := xmin
        xmax := invalidTransactionId })

/-- Translation of `save_new_metas` from `utils.rs`:
`LinkedItemList::add_items` appends the new entries to the SegmentMetas
chain (the chain is viewed here in entry order, pages flattened). -/
def save_new_metas (chain : List SegmentMetaEntry)
    (meta previous_meta : List TantivySegment) (xmin opstamp : Nat) :
    List SegmentMetaEntry :=
  chain ++ save_new_metas_entries meta previous_meta xmin opstamp

/-- Body of the inner offset loop of `delete_unused_metas` (`utils.rs`)
on one page: every entry whose id is in `deleted_ids` and that is not
already tombstoned is replaced in place by the same record with the given
`xmax` (`page.replace_item` with an equal-size record). -/
def delete_unused_metas_page (deleted_ids : List Nat) (xmax : Nat) :
    List SegmentMetaEntry → List SegmentMetaEntry
  | [] => []
  | entry :: rest =>
    (if deleted_ids.contains entry.segment_id && !entry.deleted then
      { entry with xmax := xmax }
    else entry) :: delete_unused_metas_page deleted_ids xmax rest

/-- Translation of `delete_unused_metas` from `utils.rs`: walk the
SegmentMetas chain page by page, tombstoning on each page. -/
def delete_unused_metas (deleted_ids : List Nat) (xmax : Nat) :
    List (List SegmentMetaEntry) → List (List SegmentMetaEntry)
  | [] => []
  | page :: rest =>
    delete_unused_metas_page deleted_ids xmax page ::
      delete_unused_metas deleted_ids xmax rest

/-- Body of the inner offset loop of `delete_unused_delete_metas`
(`utils.rs`) on one page of the DeleteMetas chain. -/
def delete_unused_delete_metas_page (deleted_ids : List Nat) (xmax : Nat) :
    List DeleteMetaEntry → List DeleteMetaEntry
  | [] => []
  | entry :: rest =>
    (if deleted_ids.contains entry.segment_id && !entry.deleted then
      { entry with xmax := xmax }
    else entry) :: delete_unused_delete_metas_page deleted_ids xmax rest

/-- Translation of `delete_unused_delete_metas` from `utils.rs`. -/
def delete_unused_delete_metas (deleted_ids : List Nat) (xmax : Nat) :
    List (List DeleteMetaEntry) → List (List DeleteMetaEntry)
  | [] => []
  | page :: rest =>
    delete_unused_delete_metas_page deleted_ids xmax page ::
      delete_unused_delete_metas deleted_ids xmax rest

/-- Body of the inner offset loop of `delete_unused_directory_entries`
(`utils.rs`) on one page of the Directory chain: the entry's segment id
is parsed from its path (a parse failure panics in the source, modelled
as `none`); an entry whose parsed id is in `deleted_ids` and that is not
tombstoned is replaced in place with the given `xmax`.  The side effect
of marking the entry's backing byte-stream chain deleted touches a
different storage object and is outside this chain model. -/
def delete_unused_directory_entries_page (deleted_ids : List Nat)
    (xmax : Nat) : List DirectoryEntry → Option (List DirectoryEntry)
  | [] => some []
  | entry :: rest =>
    match SegmentComponentId.try_from entry.path with
    | none => none
    | some entry_segment_id =>
      (delete_unused_directory_entries_page deleted_ids xmax rest).map
        (fun tail =>
          (if deleted_ids.contains entry_segment_id && !entry.deleted then
            { entry with xmax := xmax }
          else entry) :: tail)

/-- Translation of `delete_unused_directory_entries` from `utils.rs`:
walk the Directory chain page by page. -/
def delete_unused_directory_entries (deleted_ids : List Nat) (xmax : Nat) :
    List (List DirectoryEntry) → Option (List (List DirectoryEntry))
  | [] => some []
  | page :: rest =>
    match delete_unused_directory_entries_page deleted_ids xmax page with
    | none => none
    | some page_result =>
      (delete_unused_directory_entries deleted_ids xmax rest).map
        (fun tail => page_result :: tail)

/-- Scan of one page for the first entry satisfying the predicate,
returning it with its offset number (offsets as 0-based indices). -/
def scanPage (pred : DirectoryEntry → Bool) :
    List DirectoryEntry → Option (DirectoryEntry × Nat)
  | [] => none
  | entry :: rest =>
    if pred entry then some (entry, 0)
    else (scanPage pred rest).map (fun r => (r.1, r.2 + 1))

/-- Modelled from the spec: `LinkedItemList::lookup` — linear shared-lock
traversal of a chain from its start block, page by page, returning the
first matching `(record, block, offset)` (blocks as 0-based page
indices). -/
def chainLookup (pred : DirectoryEntry → Bool) :
    List (List DirectoryEntry) → Option (DirectoryEntry × Nat × Nat)
  | [] => none
  | page :: rest =>
    match scanPage pred page with
    | some (entry, offset) => some (entry, 0, offset)
    | none =>
      (chainLookup pred rest).map (fun r => (r.1, r.2.1 + 1, r.2.2))

/-- Translation of `DirectoryLookup::directory_lookup` from `utils.rs`:
look up a path in the Directory chain with the exact-equality predicate
`opaque.path == *path`. -/
def directory_lookup (pages : List (List DirectoryEntry)) (path : String) :
    Option (DirectoryEntry × Nat × Nat) :=
  chainLookup (fun entry => entry.path == path) pages

/-- Folded per-segment delete metadata, the tantivy `DeleteMeta`. -/
structure DeleteMeta where
  num_deleted_docs : Nat
  opstamp : Nat
deriving DecidableEq, Repr

/-- One step of the delete-chain fold of `load_metas` (`utils.rs`) on the
`delete_meta_entries` map: `HashMap::entry(..).and_modify(..).or_insert(..)`
keeps, per segment id, the entry with the strictly highest opstamp seen so
far (a later entry overwrites only on a strictly larger opstamp). -/
def deleteEntriesStep (m : Nat → Option DeleteMeta) (entry : DeleteMetaEntry) :
    Nat → Option DeleteMeta :=
  fun id =>
    if id = entry.segment_id then
      match m entry.segment_id with
      | some existing =>
        if entry.opstamp > existing.opstamp then
          some { num_deleted_docs := entry.num_deleted_docs
                 opstamp := entry.opstamp }
        else some existing
      | none =>
        some { num_deleted_docs := entry.num_deleted_docs
               opstamp := entry.opstamp }
    else m id

/-- One step of the delete-chain fold of `load_metas` on the
`delete_meta_opstamps` map: per segment id, the maximal opstamp seen. -/
def deleteOpstampsStep (m : Nat → Option Nat) (entry : DeleteMetaEntry) :
    Nat → Option Nat :=
  fun id =>
    if id = entry.segment_id then
      match m entry.segment_id with
      | some existing =>
        if entry.opstamp > existing then some entry.opstamp else some existing
      | none => some entry.opstamp
    else m id

/-- The `delete_meta_entries` map built by the first loop of `load_metas`:
a fold over the whole DeleteMetas chain, page by page, offset by offset. -/
def delete_meta_entries (pages : List (List DeleteMetaEntry)) :
    Nat → Option DeleteMeta :=
  pages.foldl (fun m page => page.foldl deleteEntriesStep m) (fun _ => none)

/-- The `delete_meta_opstamps` map built by the first loop of
`load_metas`. -/
def delete_meta_opstamps (pages : List (List DeleteMetaEntry)) :
    Nat → Option Nat :=
  pages.foldl (fun m page => page.foldl deleteOpstampsStep m) (fun _ => none)

/-- Projection of a tantivy `InnerSegmentMeta` as assembled by
`load_metas`: `max_doc`, the segment id, and the folded deletes attached
to it (the `include_temp_doc_store` flag carries no information). -/
structure InnerSegmentMeta where
  max_doc : Nat
  segment_id : Nat
  deletes : Option DeleteMeta
deriving DecidableEq, Repr

/-- The assembled index view returned by `load_metas`: the alive
segments and the assembled opstamp (schema and settings are opaque blobs
deserialized at the end of `load_metas`; their contents are outside this
model). -/
structure LoadedIndexMeta where
  segments : List InnerSegmentMeta
  opstamp : Nat
deriving DecidableEq, Repr

/-- Inclusion test of the segment walk of `load_metas` (`utils.rs`):
`entry.visible(snapshot) || (!solve_mvcc && !entry.recyclable(..))`.
The host-dependent `recyclable` check (spec section 9 leaves it
host-specific) is an explicit parameter. -/
def segmentIncluded (snapshot : Snapshot) (solve_mvcc : Bool)
    (recyclable : SegmentMetaEntry → Bool) (entry : SegmentMetaEntry) : Bool :=
  entry.visible snapshot || (!solve_mvcc && !recyclable entry)

/-- One step of the segment walk of `load_metas`: an included entry is
turned into an `InnerSegmentMeta` with its folded deletes attached and
pushed onto `alive_segments`, and the running opstamp is raised to the
entry's opstamp and to the segment's folded delete opstamp when present. -/
def segmentStep (dm : Nat → Option DeleteMeta) (om : Nat → Option Nat)
    (snapshot : Snapshot) (solve_mvcc : Bool)
    (recyclable : SegmentMetaEntry → Bool)
    (acc : List InnerSegmentMeta × Nat) (entry : SegmentMetaEntry) :
    List InnerSegmentMeta × Nat :=
  if segmentIncluded snapshot solve_mvcc recyclable entry then
    let segment_meta : InnerSegmentMeta :=
      { max_doc := entry.max_doc
        segment_id := entry.segment_id
        deletes := dm entry.segment_id }
    let op1 := if entry.opstamp > acc.2 then entry.opstamp else acc.2
    let op2 :=
      match om entry.segment_id with
      | some delete_opstamp =>
        if delete_opstamp > op1 then delete_opstamp else op1
      | none => op1
    (acc.1 ++ [segment_meta], op2)
  else acc

/-- Translation of `load_metas` from `utils.rs`: fold the whole
DeleteMetas chain into the two per-segment maps, then walk the
SegmentMetas chain page by page collecting the included entries and the
maximal opstamp. -/
def load_metas (delete_pages : List (List DeleteMetaEntry))
    (segment_pages : List (List SegmentMetaEntry)) (snapshot : Snapshot)
    (solve_mvcc : Bool) (recyclable : SegmentMetaEntry → Bool) :
    LoadedIndexMeta :=
  let dm := delete_meta_entries delete_pages
  let om := delete_meta_opstamps delete_pages
  let r := segment_pages.foldl
    (fun acc page =>
      page.foldl (segmentStep dm om snapshot solve_mvcc recyclable) acc)
    ([], 0)
  { segments := r.1, opstamp := r.2 }

/-! Theorems. -/

theorem findDotPos_eq_none_iff (cs : List Char) :
    findDotPos cs = none ↔ '.' ∉ cs := by
  induction cs with
  | nil => simp [findDotPos]
  | cons c rest ih =>
    by_cases hc : c = '.'
    · simp [findDotPos, hc]
    · simp only [findDotPos, hc, if_false, Option.map_eq_none', ih,
        List.mem_cons, not_or]
      constructor
      · intro h
        exact ⟨fun he => hc he.symm, h⟩
      · intro h
        exact h.2

theorem findDotPos_take (cs : List Char) :
    ∀ pos, findDotPos cs = some pos →
      cs.take pos = cs.takeWhile (fun c => c ≠ '.') := by
  induction cs with
  | nil => intro pos h; simp [findDotPos] at h
  | cons c rest ih =>
    intro pos h
    by_cases hc : c = '.'
    · simp only [findDotPos, hc, if_true, Option.some.injEq] at h
      subst h
      simp [List.takeWhile_cons, hc]
    · simp only [findDotPos, hc, if_false, Option.map_eq_some'] at h
      obtain ⟨p, hp, rfl⟩ := h
      simp [List.take_succ_cons, List.takeWhile_cons, hc, ih p hp]

theorem try_from_char (p : String) (id : Nat) :
    SegmentComponentId.try_from p = some id ↔
      ('.' ∈ p.toList ∧
        parseUuid (String.mk (p.toList.takeWhile (fun c => c ≠ '.'))) = some id) := by
  cases h : findDotPos p.toList with
  | none =>
    have hnot := (findDotPos_eq_none_iff _).mp h
    simp only [SegmentComponentId.try_from, h]
    constructor
    · intro hfalse
      exact Option.noConfusion hfalse
    · intro hx
      exact absurd hx.1 hnot
  | some pos =>
    have hmem : '.' ∈ p.toList := by
      by_contra hnot
      rw [(findDotPos_eq_none_iff _).mpr hnot] at h
      exact Option.noConfusion h
    have ht := findDotPos_take _ pos h
    simp only [SegmentComponentId.try_from, h, ht, hmem, true_and]

/-- C6: converting a segment component path to a segment id succeeds
exactly when the path contains a `'.'` and the substring before the
first `'.'` parses as a UUID (returning that UUID); a path with no `'.'`
fails; the two canonical example paths both parse to the zero UUID. -/
theorem segment_component_id_try_from_spec :
    (∀ (p : String) (id : Nat),
      SegmentComponentId.try_from p = some id ↔
        ('.' ∈ p.toList ∧
          parseUuid (String.mk (p.toList.takeWhile (fun c => c ≠ '.'))) = some id)) ∧
    (∀ p : String, '.' ∉ p.toList → SegmentComponentId.try_from p = none) ∧
    SegmentComponentId.try_from "00000000-0000-0000-0000-000000000000.ext" = some 0 ∧
    SegmentComponentId.try_from "00000000-0000-0000-0000-000000000000.123.del" = some 0 ∧
    SegmentComponentId.try_from "nodots" = none := by
  refine ⟨try_from_char, ?_, by decide, by decide, by decide⟩
  intro p hp
  unfold SegmentComponentId.try_from
  rw [(findDotPos_eq_none_iff _).mpr hp]

/-- C6 witness: the no-dot failure applied at a concrete path. -/
theorem segment_component_id_try_from_spec_witness :
    SegmentComponentId.try_from "meta_json" = none :=
  segment_component_id_try_from_spec.2.1 "meta_json" (by decide)

/-- C2: `get_deleted_ids(new_meta, previous_meta)` returns exactly the
set of segment ids present in `new_meta` with zero live documents,
unioned with the ids present in `previous_meta` but absent from
`new_meta`; on `previous = [A: 10 docs, B: 5 docs]` and `new = [C: 15 docs]`
(ids A=1, B=2, C=3) the result is exactly the set containing A and B. -/
theorem get_deleted_ids_spec :
    (∀ (meta previous_meta : List TantivySegment) (id : Nat),
      id ∈ get_deleted_ids meta previous_meta ↔
        ((∃ s ∈ meta, s.id = id ∧ s.num_docs = 0) ∨
          ((∃ s ∈ previous_meta, s.id = id) ∧ ∀ s ∈ meta, s.id ≠ id))) ∧
    (∀ id : Nat,
      id ∈ get_deleted_ids
            [{ id := 3, max_doc := 15, num_deleted_docs := 0, delete_opstamp := none }]
            [{ id := 1, max_doc := 10, num_deleted_docs := 0, delete_opstamp := none },
             { id := 2, max_doc := 5, num_deleted_docs := 0, delete_opstamp := none }] ↔
        (id = 1 ∨ id = 2)) := by
  constructor
  · intro meta previous_meta id
    simp only [get_deleted_ids, List.mem_append, List.mem_map, List.mem_filter,
      beq_iff_eq, Bool.not_eq_true', List.contains_eq_any_beq, List.any_eq_false,
      List.mem_map, beq_eq_false_iff_ne, ne_eq]
    constructor
    · intro h
      aesop
    · intro h
      aesop
  · intro id
    simp [get_deleted_ids, TantivySegment.num_docs]

/-- C2 witness: the spec evaluated at the concrete merge example. -/
theorem get_deleted_ids_spec_witness :
    1 ∈ get_deleted_ids
          [{ id := 3, max_doc := 15, num_deleted_docs := 0, delete_opstamp := none }]
          [{ id := 1, max_doc := 10, num_deleted_docs := 0, delete_opstamp := none },
           { id := 2, max_doc := 5, num_deleted_docs := 0, delete_opstamp := none }] :=
  (get_deleted_ids_spec.2 1).mpr (Or.inl rfl)

/-- C7: `save_schema` and `save_settings` are write-once — on a
non-empty chain they write nothing, and (for the non-empty serialized
payloads that `serde_json::to_vec` produces) a second call with any
input leaves the chain bytes, and hence the byte length, identical to
the state after the first call. -/
theorem save_schema_write_once (chain bytes bytes2 : List Nat) :
    (chain ≠ [] →
      save_schema chain bytes = chain ∧ save_settings chain bytes = chain) ∧
    (bytes ≠ [] →
      save_schema (save_schema chain bytes) bytes2 = save_schema chain bytes ∧
      (save_schema (save_schema chain bytes) bytes2).length =
        (save_schema chain bytes).length ∧
      save_settings (save_settings chain bytes) bytes2 =
        save_settings chain bytes ∧
      (save_settings (save_settings chain bytes) bytes2).length =
        (save_settings chain bytes).length) := by
  constructor
  · intro h
    simp [save_schema, save_settings, List.isEmpty_iff, h]
  · intro h
    cases chain with
    | nil =>
      simp [save_schema, save_settings, bytesListWrite, List.isEmpty_iff, h]
    | cons c rest =>
      simp [save_schema, save_settings, bytesListWrite]

/-- C7 witness: the write-once law evaluated on a concrete chain. -/
theorem save_schema_write_once_witness :
    save_schema (save_schema [] [7, 7]) [9] = save_schema [] [7, 7] :=
  ((save_schema_write_once [] [7, 7] [9]).2 (by decide)).1

/-- C9: every metadata entry created by the append operations is born
live — each `SegmentMetaEntry` built by `save_new_metas` and each
`DeleteMetaEntry` built by `save_delete_metas` has
`xmax = InvalidTransactionId`, hence is not tombstoned; consequently any
entry of the appended chain that was not already on the chain is live. -/
theorem appended_entries_born_live (chain_s : List SegmentMetaEntry)
    (chain_d : List DeleteMetaEntry) (meta previous_meta : List TantivySegment)
    (xmin opstamp : Nat) :
    (∀ e ∈ save_new_metas_entries meta previous_meta xmin opstamp,
      e.xmax = invalidTransactionId ∧ e.deleted = false) ∧
    (∀ e ∈ save_delete_metas_entries meta opstamp,
      e.xmax = invalidTransactionId ∧ e.deleted = false) ∧
    (∀ e ∈ save_new_metas chain_s meta previous_meta xmin opstamp,
      e ∉ chain_s → e.xmax = invalidTransactionId) ∧
    (∀ e ∈ save_delete_metas chain_d meta opstamp,
      e ∉ chain_d → e.xmax = invalidTransactionId) := by
  refine ⟨?_, ?_, ?_, ?_⟩
  · intro e he
    simp only [save_new_metas_entries, List.mem_map] at he
    obtain ⟨s, _, rfl⟩ := he
    exact ⟨rfl, by simp [SegmentMetaEntry.deleted]⟩
  · intro e he
    simp only [save_delete_metas_entries, List.mem_map] at he
    obtain ⟨s, _, rfl⟩ := he
    exact ⟨rfl, by simp [DeleteMetaEntry.deleted]⟩
  · intro e he hnot
    rcases List.mem_append.mp he with h | h
    · exact absurd h hnot
    · simp only [save_new_metas_entries, List.mem_map] at h
      obtain ⟨s, _, rfl⟩ := h
      rfl
  · intro e he hnot
    rcases List.mem_append.mp he with h | h
    · exact absurd h hnot
    · simp only [save_delete_metas_entries, List.mem_map] at h
      obtain ⟨s, _, rfl⟩ := h
      rfl

/-- C9 witness: a freshly appended segment entry is live on a concrete
input. -/
theorem appended_entries_born_live_witness :
    ∀ e ∈ save_new_metas_entries
        [{ id := 5, max_doc := 4, num_deleted_docs := 0, delete_opstamp := none }]
        [] 17 3,
      e.xmax = invalidTransactionId ∧ e.deleted = false :=
  (appended_entries_born_live [] []
    [{ id := 5, max_doc := 4, num_deleted_docs := 0, delete_opstamp := none }]
    [] 17 3).1

/-- C10: `save_new_metas` appends an entry exactly for the segments of
`meta` whose id is absent from `previous_meta` and whose `num_docs` is
positive; no appended entry carries an id of `previous_meta`, and (for
duplicate-free metas) a segment emptied to zero documents gets no entry
while its id lands in the obsolete set of `get_deleted_ids`. -/
theorem save_new_metas_filters (meta previous_meta : List TantivySegment)
    (xmin opstamp : Nat) :
    (∀ e ∈ save_new_metas_entries meta previous_meta xmin opstamp,
      ∃ s ∈ meta, e.segment_id = s.id ∧ e.max_doc = s.max_doc ∧
        0 < s.num_docs ∧ s.id ∉ previous_meta.map (fun t => t.id)) ∧
    (∀ e ∈ save_new_metas_entries meta previous_meta xmin opstamp,
      e.segment_id ∉ previous_meta.map (fun t => t.id)) ∧
    ((meta.map (fun s => s.id)).Nodup → ∀ s ∈ meta, s.num_docs = 0 →
      s.id ∈ get_deleted_ids meta previous_meta ∧
      ∀ e ∈ save_new_metas_entries meta previous_meta xmin opstamp,
        e.segment_id ≠ s.id) := by
  have hchar : ∀ e ∈ save_new_metas_entries meta previous_meta xmin opstamp,
      ∃ s ∈ meta, e.segment_id = s.id ∧ e.max_doc = s.max_doc ∧
        0 < s.num_docs ∧ s.id ∉ previous_meta.map (fun t => t.id) := by
    intro e he
    simp only [save_new_metas_entries, List.mem_map, List.mem_filter] at he
    obtain ⟨s, ⟨hs, hcond⟩, rfl⟩ := he
    simp only [Bool.and_eq_true, Bool.not_eq_true', decide_eq_true_eq] at hcond
    refine ⟨s, hs, rfl, rfl, hcond.2, ?_⟩
    have := hcond.1
    simp only [List.contains_eq_any_beq, List.any_eq_false, beq_eq_false_iff_ne,
      ne_eq] at this
    intro hmem
    simp only [List.mem_map] at hmem
    obtain ⟨t, ht, hts⟩ := hmem
    exact this (t.id) (List.mem_map.mpr ⟨t, ht, rfl⟩) (by simp [hts])
  refine ⟨hchar, ?_, ?_⟩
  · intro e he
    obtain ⟨s, _, hid, _, _, habs⟩ := hchar e he
    exact hid ▸ habs
  · intro hnodup s hs hzero
    constructor
    · exact (get_deleted_ids_spec.1 meta previous_meta s.id).mpr
        (Or.inl ⟨s, hs, rfl, hzero⟩)
    · intro e he heq
      obtain ⟨t, ht, hid, _, hpos, _⟩ := hchar e he
      have hts : t.id = s.id := hid ▸ heq
      have : t = s := by
        have h1 : meta.map (fun s => s.id) |>.Nodup := hnodup
        have := List.inj_on_of_nodup_map h1 ht hs hts
        exact this
      subst this
      omega

/-- C10 witness: a zero-doc merge output on concrete input is obsolete
and gets no fresh segment entry. -/
theorem save_new_metas_filters_witness :
    (5 : Nat) ∈ get_deleted_ids
        [{ id := 5, max_doc := 3, num_deleted_docs := 3, delete_opstamp := none }]
        [] ∧
    ∀ e ∈ save_new_metas_entries
        [{ id := 5, max_doc := 3, num_deleted_docs := 3, delete_opstamp := none }]
        [] 1 2,
      e.segment_id ≠ 5 := by
  have h := (save_new_metas_filters
    [{ id := 5, max_doc := 3, num_deleted_docs := 3, delete_opstamp := none }]
    [] 1 2).2.2 (by decide)
    { id := 5, max_doc := 3, num_deleted_docs := 3, delete_opstamp := none }
    (by decide) (by decide)
  exact h

theorem scanPage_map_fst (pred : DirectoryEntry → Bool)
    (page : List DirectoryEntry) :
    (scanPage pred page).map (fun r => r.1) = page.find? pred := by
  induction page with
  | nil => rfl
  | cons e rest ih =>
    by_cases h : pred e
    · simp [scanPage, h, List.find?_cons]
    · simp only [scanPage, h, Bool.false_eq_true, if_false, List.find?_cons,
        Option.map_map]
      rw [← ih]
      rfl

theorem chainLookup_map_fst (pred : DirectoryEntry → Bool)
    (pages : List (List DirectoryEntry)) :
    (chainLookup pred pages).map (fun r => r.1) = pages.flatten.find? pred := by
  induction pages with
  | nil => rfl
  | cons page rest ih =>
    cases hs : scanPage pred page with
    | some r =>
      have hp : page.find? pred = some r.1 := by
        rw [← scanPage_map_fst, hs]
        rfl
      simp [chainLookup, hs, List.find?_append, hp]
    | none =>
      have hp : page.find? pred = none := by
        rw [← scanPage_map_fst, hs]
        rfl
      simp only [chainLookup, hs, List.flatten_cons, List.find?_append, hp,
        Option.none_orElse, Option.map_map]
      rw [← ih]
      rfl

/-- C8: `directory_lookup` matches by exact path equality only — when
some entry of the Directory chain has the requested path the lookup
succeeds, the returned entry is the first entry of the chain with that
exact path (visibility is never consulted), and a tombstoned returned
entry satisfies `deleted() = true`. -/
theorem directory_lookup_spec (pages : List (List DirectoryEntry))
    (path : String) :
    ((∃ e ∈ pages.flatten, e.path = path) →
      ∃ r, directory_lookup pages path = some r) ∧
    (∀ e b off, directory_lookup pages path = some (e, b, off) →
      pages.flatten.find? (fun x => x.path == path) = some e ∧
      e.path = path ∧
      (e.xmax ≠ invalidTransactionId → e.deleted = true)) := by
  constructor
  · intro ⟨e, he, hpath⟩
    have hfind : (pages.flatten.find? (fun x => x.path == path)).isSome := by
      rw [List.find?_isSome]
      exact ⟨e, he, by simp [hpath]⟩
    rw [← chainLookup_map_fst] at hfind
    obtain ⟨r, hr⟩ := Option.isSome_iff_exists.mp (by simpa using hfind)
    exact ⟨r, hr⟩
  · intro e b off h
    have hfst : pages.flatten.find? (fun x => x.path == path) = some e := by
      rw [← chainLookup_map_fst, directory_lookup] at *
      rw [h]
      rfl
    have hpath : e.path = path := by
      have := List.find?_some hfst
      simpa using this
    refine ⟨hfst, hpath, fun hx => ?_⟩
    simp [DirectoryEntry.deleted, bne, hx]

/-- C8 witness: a tombstoned concrete entry is still found by path and
reports itself deleted. -/
theorem directory_lookup_spec_witness :
    [[({ path := "a.ext", start := 3, xmin := 100, xmax := 200 } :
        DirectoryEntry)]].flatten.find? (fun x => x.path == "a.ext") =
      some { path := "a.ext", start := 3, xmin := 100, xmax := 200 } ∧
    ({ path := "a.ext", start := 3, xmin := 100, xmax := 200 } :
      DirectoryEntry).path = "a.ext" ∧
    (({ path := "a.ext", start := 3, xmin := 100, xmax := 200 } :
      DirectoryEntry).xmax ≠ invalidTransactionId →
      ({ path := "a.ext", start := 3, xmin := 100, xmax := 200 } :
        DirectoryEntry).deleted = true) :=
  (directory_lookup_spec
    [[{ path := "a.ext", start := 3, xmin := 100, xmax := 200 }]] "a.ext").2
    { path := "a.ext", start := 3, xmin := 100, xmax := 200 } 0 0 (by decide)


theorem delete_unused_metas_page_eq_map (deleted_ids : List Nat) (xmax : Nat)
    (page : List SegmentMetaEntry) :
    delete_unused_metas_page deleted_ids xmax page =
      page.map (fun e =>
        if deleted_ids.contains e.segment_id && !e.deleted then
          { e with xmax := xmax }
        else e) := by
  induction page with
  | nil => rfl
  | cons e rest ih => simp [delete_unused_metas_page, ih]

theorem delete_unused_metas_eq_map (deleted_ids : List Nat) (xmax : Nat)
    (pages : List (List SegmentMetaEntry)) :
    delete_unused_metas deleted_ids xmax pages =
      pages.map (delete_unused_metas_page deleted_ids xmax) := by
  induction pages with
  | nil => rfl
  | cons page rest ih => simp [delete_unused_metas, ih]

theorem delete_unused_delete_metas_page_eq_map (deleted_ids : List Nat)
    (xmax : Nat) (page : List DeleteMetaEntry) :
    delete_unused_delete_metas_page deleted_ids xmax page =
      page.map (fun e =>
        if deleted_ids.contains e.segment_id && !e.deleted then
          { e with xmax := xmax }
        else e) := by
  induction page with
  | nil => rfl
  | cons e rest ih => simp [delete_unused_delete_metas_page, ih]

theorem delete_unused_delete_metas_eq_map (deleted_ids : List Nat) (xmax : Nat)
    (pages : List (List DeleteMetaEntry)) :
    delete_unused_delete_metas deleted_ids xmax pages =
      pages.map (delete_unused_delete_metas_page deleted_ids xmax) := by
  induction pages with
  | nil => rfl
  | cons page rest ih => simp [delete_unused_delete_metas, ih]

/-- Per-entry action of the directory tombstoning pass once the entry's
path is known to parse. -/
def directoryTombstoneAction (deleted_ids : List Nat) (xmax : Nat)
    (e : DirectoryEntry) : DirectoryEntry :=
  match SegmentComponentId.try_from e.path with
  | some sid =>
    if deleted_ids.contains sid && !e.deleted then { e with xmax := xmax }
    else e
  | none => e

theorem delete_unused_directory_entries_page_eq_map (deleted_ids : List Nat)
    (xmax : Nat) (page : List DirectoryEntry)
    (h : ∀ e ∈ page, (SegmentComponentId.try_from e.path).isSome) :
    delete_unused_directory_entries_page deleted_ids xmax page =
      some (page.map (directoryTombstoneAction deleted_ids xmax)) := by
  induction page with
  | nil => rfl
  | cons e rest ih =>
    have he := h e (List.mem_cons_self e rest)
    obtain ⟨sid, hsid⟩ := Option.isSome_iff_exists.mp he
    have hrest := ih (fun x hx => h x (List.mem_cons_of_mem e hx))
    simp [delete_unused_directory_entries_page, hsid, hrest,
      directoryTombstoneAction]

theorem delete_unused_directory_entries_eq_map (deleted_ids : List Nat)
    (xmax : Nat) (pages : List (List DirectoryEntry))
    (h : ∀ page ∈ pages, ∀ e ∈ page,
      (SegmentComponentId.try_from e.path).isSome) :
    delete_unused_directory_entries deleted_ids xmax pages =
      some (pages.map (fun page =>
        page.map (directoryTombstoneAction deleted_ids xmax))) := by
  induction pages with
  | nil => rfl
  | cons page rest ih =>
    have hpage := delete_unused_directory_entries_page_eq_map deleted_ids xmax
      page (h page (List.mem_cons_self page rest))
    have hrest := ih (fun q hq => h q (List.mem_cons_of_mem page hq))
    simp [delete_unused_directory_entries, hpage, hrest]

/-- C3: each tombstoning pass replaces in place exactly the entries whose
segment id is in the given set and that are not already tombstoned; the
replacement sets only the `xmax` field, and every other entry on every
page (and the page/chain shape) is unchanged.  The entry at any position
of the result is the original entry with
`xmax := (if targeted then the supplied xmax else the old xmax)`.  For
the directory pass the segment id of an entry is parsed from its path,
which must parse (the source panics otherwise). -/
theorem tombstone_passes_frame (deleted_ids : List Nat) (xmax : Nat) :
    (∀ (pages : List (List SegmentMetaEntry)),
      (delete_unused_metas deleted_ids xmax pages).length = pages.length ∧
      ∀ (p i : Nat) (page : List SegmentMetaEntry) (entry : SegmentMetaEntry),
        pages[p]? = some page → page[i]? = some entry →
        ∃ page', (delete_unused_metas deleted_ids xmax pages)[p]? = some page' ∧
          page'.length = page.length ∧
          page'[i]? = some { entry with xmax :=
            (if deleted_ids.contains entry.segment_id && !entry.deleted then
              xmax
            else entry.xmax) }) ∧
    (∀ (pages : List (List DeleteMetaEntry)),
      (delete_unused_delete_metas deleted_ids xmax pages).length =
        pages.length ∧
      ∀ (p i : Nat) (page : List DeleteMetaEntry) (entry : DeleteMetaEntry),
        pages[p]? = some page → page[i]? = some entry →
        ∃ page',
          (delete_unused_delete_metas deleted_ids xmax pages)[p]? =
            some page' ∧
          page'.length = page.length ∧
          page'[i]? = some { entry with xmax :=
            (if deleted_ids.contains entry.segment_id && !entry.deleted then
              xmax
            else entry.xmax) }) ∧
    (∀ (pages : List (List DirectoryEntry)),
      (∀ page ∈ pages, ∀ e ∈ page,
        (SegmentComponentId.try_from e.path).isSome) →
      ∃ result,
        delete_unused_directory_entries deleted_ids xmax pages = some result ∧
        result.length = pages.length ∧
        ∀ (p i : Nat) (page : List DirectoryEntry) (entry : DirectoryEntry)
          (sid : Nat), pages[p]? = some page → page[i]? = some entry →
          SegmentComponentId.try_from entry.path = some sid →
          ∃ page', result[p]? = some page' ∧ page'.length = page.length ∧
            page'[i]? = some { entry with xmax :=
              (if deleted_ids.contains sid && !entry.deleted then xmax
              else entry.xmax) }) := by
  refine ⟨?_, ?_, ?_⟩
  · intro pages
    rw [delete_unused_metas_eq_map]
    refine ⟨List.length_map _ _, ?_⟩
    intro p i page entry hp hi
    refine ⟨delete_unused_metas_page deleted_ids xmax page, ?_, ?_, ?_⟩
    · rw [List.getElem?_map, hp]
      rfl
    · rw [delete_unused_metas_page_eq_map]
      exact List.length_map _ _
    · rw [delete_unused_metas_page_eq_map, List.getElem?_map, hi]
      simp only [Option.map_some', Option.some.injEq]
      by_cases hc : deleted_ids.contains entry.segment_id && !entry.deleted
      · rw [if_pos hc, if_pos hc]
      · rw [if_neg hc, if_neg hc]
  · intro pages
    rw [delete_unused_delete_metas_eq_map]
    refine ⟨List.length_map _ _, ?_⟩
    intro p i page entry hp hi
    refine ⟨delete_unused_delete_metas_page deleted_ids xmax page, ?_, ?_, ?_⟩
    · rw [List.getElem?_map, hp]
      rfl
    · rw [delete_unused_delete_metas_page_eq_map]
      exact List.length_map _ _
    · rw [delete_unused_delete_metas_page_eq_map, List.getElem?_map, hi]
      simp only [Option.map_some', Option.some.injEq]
      by_cases hc : deleted_ids.contains entry.segment_id && !entry.deleted
      · rw [if_pos hc, if_pos hc]
      · rw [if_neg hc, if_neg hc]
  · intro pages h
    refine ⟨_, delete_unused_directory_entries_eq_map deleted_ids xmax pages h,
      List.length_map _ _, ?_⟩
    intro p i page entry sid hp hi hsid
    refine ⟨page.map (directoryTombstoneAction deleted_ids xmax), ?_, ?_, ?_⟩
    · rw [List.getElem?_map, hp]
      rfl
    · exact List.length_map _ _
    · rw [List.getElem?_map, hi]
      simp only [Option.map_some']
      rw [directoryTombstoneAction, hsid]
      simp only [Option.some.injEq]
      by_cases hc : deleted_ids.contains sid && !entry.deleted
      · rw [if_pos hc, if_pos hc]
      · rw [if_neg hc, if_neg hc]

/-- C3 witness: the segment-meta pass at a concrete two-entry page
tombstones the targeted live entry in place. -/
theorem tombstone_passes_frame_witness :
    ∃ page',
      (delete_unused_metas [5] 200
          [[{ segment_id := 5, max_doc := 3, opstamp := 1, xmin := 9, xmax := 0 },
            { segment_id := 6, max_doc := 4, opstamp := 2, xmin := 9, xmax := 0 }]])[0]? =
        some page' ∧
      page'.length = 2 ∧
      page'[0]? =
        some { segment_id := 5, max_doc := 3, opstamp := 1, xmin := 9, xmax := 200 } :=
  ((tombstone_passes_frame [5] 200).1
    [[{ segment_id := 5, max_doc := 3, opstamp := 1, xmin := 9, xmax := 0 },
      { segment_id := 6, max_doc := 4, opstamp := 2, xmin := 9, xmax := 0 }]]).2
    0 0 _ _ rfl rfl

theorem delete_meta_entries_eq_flatten (pages : List (List DeleteMetaEntry)) :
    delete_meta_entries pages =
      pages.flatten.foldl deleteEntriesStep (fun _ => none) :=
  (List.foldl_flatten _ _ _).symm

theorem delete_meta_opstamps_eq_flatten (pages : List (List DeleteMetaEntry)) :
    delete_meta_opstamps pages =
      pages.flatten.foldl deleteOpstampsStep (fun _ => none) :=
  (List.foldl_flatten _ _ _).symm

theorem deleteEntriesStep_ne (m : Nat → Option DeleteMeta)
    (e : DeleteMetaEntry) (id : Nat) (h : id ≠ e.segment_id) :
    deleteEntriesStep m e id = m id := by
  simp [deleteEntriesStep, h]

theorem deleteEntriesStep_self_none (m : Nat → Option DeleteMeta)
    (e : DeleteMetaEntry) (h : m e.segment_id = none) :
    deleteEntriesStep m e e.segment_id =
      some { num_deleted_docs := e.num_deleted_docs, opstamp := e.opstamp } := by
  simp [deleteEntriesStep, h]

theorem deleteEntriesStep_self_some (m : Nat → Option DeleteMeta)
    (e : DeleteMetaEntry) (ex : DeleteMeta) (h : m e.segment_id = some ex) :
    deleteEntriesStep m e e.segment_id =
      if e.opstamp > ex.opstamp then
        some { num_deleted_docs := e.num_deleted_docs, opstamp := e.opstamp }
      else some ex := by
  simp [deleteEntriesStep, h]

theorem deleteEntriesStep_eq_ge (m : Nat → Option DeleteMeta)
    (e : DeleteMetaEntry) :
    ∃ z, deleteEntriesStep m e e.segment_id = some z ∧ e.opstamp ≤ z.opstamp := by
  cases hm : m e.segment_id with
  | none =>
    exact ⟨{ num_deleted_docs := e.num_deleted_docs, opstamp := e.opstamp },
      deleteEntriesStep_self_none m e hm, le_refl _⟩
  | some ex =>
    by_cases hop : e.opstamp > ex.opstamp
    · refine ⟨{ num_deleted_docs := e.num_deleted_docs, opstamp := e.opstamp },
        ?_, le_refl _⟩
      rw [deleteEntriesStep_self_some m e ex hm, if_pos hop]
    · refine ⟨ex, ?_, by omega⟩
      rw [deleteEntriesStep_self_some m e ex hm, if_neg hop]

theorem entriesFold_mono (l : List DeleteMetaEntry) :
    ∀ (m : Nat → Option DeleteMeta) (id : Nat) (d : DeleteMeta),
      m id = some d →
      ∃ d', (l.foldl deleteEntriesStep m) id = some d' ∧
        d.opstamp ≤ d'.opstamp := by
  induction l with
  | nil => exact fun m id d h => ⟨d, h, le_refl _⟩
  | cons e rest ih =>
    intro m id d h
    rw [List.foldl_cons]
    by_cases hid : id = e.segment_id
    · subst hid
      obtain ⟨z, hz, hez⟩ := deleteEntriesStep_eq_ge m e
      have hzd : d.opstamp ≤ z.opstamp := by
        rw [deleteEntriesStep_self_some m e d h] at hz
        by_cases hop : e.opstamp > d.opstamp
        · rw [if_pos hop] at hz
          cases hz
          exact Nat.le_of_lt hop
        · rw [if_neg hop] at hz
          cases hz
          exact le_refl _
      obtain ⟨d', hd', hle⟩ := ih _ _ _ hz
      exact ⟨d', hd', le_trans hzd hle⟩
    · exact ih _ _ _ (by rw [deleteEntriesStep_ne m e id hid]; exact h)

theorem entriesFold_none_iff (l : List DeleteMetaEntry) :
    ∀ (m : Nat → Option DeleteMeta) (id : Nat),
      (l.foldl deleteEntriesStep m) id = none ↔
        m id = none ∧ ∀ e ∈ l, e.segment_id ≠ id := by
  induction l with
  | nil => simp
  | cons e rest ih =>
    intro m id
    rw [List.foldl_cons, ih]
    constructor
    · rintro ⟨hstep, hrest⟩
      have hid : id ≠ e.segment_id := by
        intro hh
        subst hh
        obtain ⟨z, hz, _⟩ := deleteEntriesStep_eq_ge m e
        rw [hz] at hstep
        exact Option.noConfusion hstep
      rw [deleteEntriesStep_ne m e id hid] at hstep
      refine ⟨hstep, fun x hx => ?_⟩
      rcases List.mem_cons.mp hx with rfl | hx'
      · exact fun hh => hid hh.symm
      · exact hrest x hx'
    · rintro ⟨hm, hall⟩
      have hid : id ≠ e.segment_id :=
        fun hh => hall e (List.mem_cons_self e rest) hh.symm
      rw [deleteEntriesStep_ne m e id hid]
      exact ⟨hm, fun x hx => hall x (List.mem_cons_of_mem e hx)⟩

theorem entriesFold_some (l : List DeleteMetaEntry) :
    ∀ (m : Nat → Option DeleteMeta) (id : Nat) (d : DeleteMeta),
      (l.foldl deleteEntriesStep m) id = some d →
      (m id = some d ∧ ∀ e ∈ l, e.segment_id = id → e.opstamp ≤ d.opstamp) ∨
      (∃ e ∈ l, e.segment_id = id ∧ e.num_deleted_docs = d.num_deleted_docs ∧
        e.opstamp = d.opstamp ∧
        ∀ e' ∈ l, e'.segment_id = id → e'.opstamp ≤ d.opstamp) := by
  induction l with
  | nil => exact fun m id d h => Or.inl ⟨h, by simp⟩
  | cons e rest ih =>
    intro m id d h
    rw [List.foldl_cons] at h
    rcases ih _ _ _ h with ⟨hm, hrest⟩ | ⟨f, hf, hfid, hndd, hfop, hmax⟩
    · by_cases hid : id = e.segment_id
      · subst hid
        cases hmm : m e.segment_id with
        | none =>
          rw [deleteEntriesStep_self_none m e hmm] at hm
          cases hm
          refine Or.inr ⟨e, List.mem_cons_self e rest, rfl, rfl, rfl, ?_⟩
          intro x hx hxid
          rcases List.mem_cons.mp hx with rfl | hx'
          · exact le_refl _
          · exact hrest x hx' hxid
        | some ex =>
          rw [deleteEntriesStep_self_some m e ex hmm] at hm
          by_cases hop : e.opstamp > ex.opstamp
          · rw [if_pos hop] at hm
            cases hm
            refine Or.inr ⟨e, List.mem_cons_self e rest, rfl, rfl, rfl, ?_⟩
            intro x hx hxid
            rcases List.mem_cons.mp hx with rfl | hx'
            · exact le_refl _
            · exact hrest x hx' hxid
          · rw [if_neg hop] at hm
            cases hm
            refine Or.inl ⟨rfl, ?_⟩
            intro x hx hxid
            rcases List.mem_cons.mp hx with rfl | hx'
            · omega
            · exact hrest x hx' hxid
      · rw [deleteEntriesStep_ne m e id hid] at hm
        refine Or.inl ⟨hm, ?_⟩
        intro x hx hxid
        rcases List.mem_cons.mp hx with rfl | hx'
        · exact absurd hxid.symm hid
        · exact hrest x hx' hxid
    · refine Or.inr ⟨f, List.mem_cons_of_mem e hf, hfid, hndd, hfop, ?_⟩
      intro x hx hxid
      rcases List.mem_cons.mp hx with rfl | hx'
      · subst hxid
        obtain ⟨z, hz, hez⟩ := deleteEntriesStep_eq_ge m x
        obtain ⟨d', hd', hzd⟩ := entriesFold_mono rest _ _ _ hz
        rw [h] at hd'
        cases hd'
        omega
      · exact hmax x hx' hxid

theorem deleteEntriesStep_ignores_xmax (m : Nat → Option DeleteMeta)
    (e : DeleteMetaEntry) (v : Nat) :
    deleteEntriesStep m { e with xmax := v } = deleteEntriesStep m e := by
  cases e
  rfl

theorem delete_meta_entries_ignores_xmax (pages : List (List DeleteMetaEntry))
    (g : DeleteMetaEntry → Nat) :
    delete_meta_entries
        (pages.map (List.map (fun e => { e with xmax := g e }))) =
      delete_meta_entries pages := by
  rw [delete_meta_entries_eq_flatten, delete_meta_entries_eq_flatten,
    ← List.map_flatten, List.foldl_map]
  congr 1

/-- C5: `load_metas` folds the delete chain into at most one `DeleteMeta`
per segment id — the folded map is defined exactly on the ids occurring
anywhere in the chain, it carries the `num_deleted_docs` and `opstamp` of
an entry with the maximal opstamp for its id, and the fold never inspects
`xmax`, so tombstoned delete entries participate exactly like live ones. -/
theorem delete_fold_spec (pages : List (List DeleteMetaEntry)) :
    (∀ id : Nat, delete_meta_entries pages id = none ↔
      ∀ e ∈ pages.flatten, e.segment_id ≠ id) ∧
    (∀ (id : Nat) (d : DeleteMeta), delete_meta_entries pages id = some d →
      ∃ e ∈ pages.flatten, e.segment_id = id ∧
        e.num_deleted_docs = d.num_deleted_docs ∧ e.opstamp = d.opstamp ∧
        ∀ e' ∈ pages.flatten, e'.segment_id = id →
          e'.opstamp ≤ d.opstamp) ∧
    (∀ g : DeleteMetaEntry → Nat,
      delete_meta_entries
          (pages.map (List.map (fun e => { e with xmax := g e }))) =
        delete_meta_entries pages) := by
  refine ⟨?_, ?_, fun g => delete_meta_entries_ignores_xmax pages g⟩
  · intro id
    rw [delete_meta_entries_eq_flatten, entriesFold_none_iff]
    simp
  · intro id d h
    rw [delete_meta_entries_eq_flatten] at h
    rcases entriesFold_some _ _ _ _ h with ⟨hm, _⟩ | hr
    · exact Option.noConfusion hm
    · exact hr

/-- C5 witness: a two-entry chain (one entry tombstoned) folds to the
highest-opstamp entry for its id. -/
theorem delete_fold_spec_witness :
    ∃ e ∈ ([[{ segment_id := 7, num_deleted_docs := 2, opstamp := 5, xmax := 0 },
             { segment_id := 7, num_deleted_docs := 9, opstamp := 8, xmax := 1 }]] :
        List (List DeleteMetaEntry)).flatten,
      e.segment_id = 7 ∧
      e.num_deleted_docs = (9 : Nat) ∧ e.opstamp = (8 : Nat) ∧
      ∀ e' ∈ ([[{ segment_id := 7, num_deleted_docs := 2, opstamp := 5, xmax := 0 },
               { segment_id := 7, num_deleted_docs := 9, opstamp := 8, xmax := 1 }]] :
          List (List DeleteMetaEntry)).flatten,
        e'.segment_id = 7 → e'.opstamp ≤ 8 :=
  (delete_fold_spec
    [[{ segment_id := 7, num_deleted_docs := 2, opstamp := 5, xmax := 0 },
      { segment_id := 7, num_deleted_docs := 9, opstamp := 8, xmax := 1 }]]).2.1
    7 { num_deleted_docs := 9, opstamp := 8 } (by decide)

theorem load_metas_def (delete_pages : List (List DeleteMetaEntry))
    (segment_pages : List (List SegmentMetaEntry)) (snapshot : Snapshot)
    (solve_mvcc : Bool) (recyclable : SegmentMetaEntry → Bool) :
    load_metas delete_pages segment_pages snapshot solve_mvcc recyclable =
      { segments := (segment_pages.flatten.foldl
          (segmentStep (delete_meta_entries delete_pages)
            (delete_meta_opstamps delete_pages) snapshot solve_mvcc recyclable)
          ([], 0)).1
        opstamp := (segment_pages.flatten.foldl
          (segmentStep (delete_meta_entries delete_pages)
            (delete_meta_opstamps delete_pages) snapshot solve_mvcc recyclable)
          ([], 0)).2 } := by
  simp only [load_metas]
  rw [← List.foldl_flatten]

theorem segmentIncluded_true (snapshot : Snapshot)
    (recyclable : SegmentMetaEntry → Bool) :
    segmentIncluded snapshot true recyclable =
      fun e => e.visible snapshot := by
  funext e
  simp [segmentIncluded]

theorem segWalk_fst (dm : Nat → Option DeleteMeta) (om : Nat → Option Nat)
    (snapshot : Snapshot) (solve_mvcc : Bool)
    (recyclable : SegmentMetaEntry → Bool) :
    ∀ (l : List SegmentMetaEntry) (acc : List InnerSegmentMeta × Nat),
      (l.foldl (segmentStep dm om snapshot solve_mvcc recyclable) acc).1 =
        acc.1 ++
          (l.filter (segmentIncluded snapshot solve_mvcc recyclable)).map
            (fun e => { max_doc := e.max_doc, segment_id := e.segment_id,
                        deletes := dm e.segment_id }) := by
  intro l
  induction l with
  | nil => intro acc; simp
  | cons e rest ih =>
    intro acc
    rw [List.foldl_cons, List.filter_cons]
    by_cases hin : segmentIncluded snapshot solve_mvcc recyclable e
    · rw [if_pos hin, ih]
      simp [segmentStep, hin]
    · rw [if_neg hin, ih]
      simp [segmentStep, hin]

theorem segWalk_snd (dm : Nat → Option DeleteMeta) (om : Nat → Option Nat)
    (snapshot : Snapshot) (solve_mvcc : Bool)
    (recyclable : SegmentMetaEntry → Bool) :
    ∀ (l : List SegmentMetaEntry) (acc : List InnerSegmentMeta × Nat),
      (l.foldl (segmentStep dm om snapshot solve_mvcc recyclable) acc).2 =
        max acc.2
          (((l.filter (segmentIncluded snapshot solve_mvcc recyclable)).map
            (fun e => max e.opstamp ((om e.segment_id).getD 0))).foldr max 0) := by
  intro l
  induction l with
  | nil => intro acc; simp
  | cons e rest ih =>
    intro acc
    rw [List.foldl_cons, List.filter_cons]
    by_cases hin : segmentIncluded snapshot solve_mvcc recyclable e
    · rw [if_pos hin, ih]
      have hstep : (segmentStep dm om snapshot solve_mvcc recyclable acc e).2 =
          max acc.2 (max e.opstamp ((om e.segment_id).getD 0)) := by
        cases hom : om e.segment_id with
        | none =>
          simp only [segmentStep, hin, if_pos, hom, Option.getD_none]
          split <;> omega
        | some dop =>
          simp only [segmentStep, hin, if_pos, hom, Option.getD_some]
          split <;> split <;> omega
      rw [hstep]
      simp only [List.map_cons, List.foldr_cons]
      omega
    · rw [if_neg hin, ih]
      have hstep : segmentStep dm om snapshot solve_mvcc recyclable acc e =
          acc := by
        simp [segmentStep, hin]
      rw [hstep]

theorem deleteOpstampsStep_agree (m1 : Nat → Option DeleteMeta)
    (m2 : Nat → Option Nat) (e : DeleteMetaEntry)
    (hinv : ∀ j, m2 j = (m1 j).map (fun d => d.opstamp)) :
    ∀ j, deleteOpstampsStep m2 e j =
      (deleteEntriesStep m1 e j).map (fun d => d.opstamp) := by
  intro j
  unfold deleteOpstampsStep deleteEntriesStep
  by_cases hj : j = e.segment_id
  · rw [if_pos hj, if_pos hj, hinv e.segment_id]
    cases h1 : m1 e.segment_id with
    | none => simp
    | some ex =>
      by_cases hop : e.opstamp > ex.opstamp
      · simp [hop]
      · simp [hop]
  · rw [if_neg hj, if_neg hj]
    exact hinv j

theorem opstampsFold_agree (l : List DeleteMetaEntry) :
    ∀ (m1 : Nat → Option DeleteMeta) (m2 : Nat → Option Nat),
      (∀ j, m2 j = (m1 j).map (fun d => d.opstamp)) →
      ∀ j, (l.foldl deleteOpstampsStep m2) j =
        ((l.foldl deleteEntriesStep m1) j).map (fun d => d.opstamp) := by
  induction l with
  | nil => exact fun m1 m2 h => h
  | cons e rest ih =>
    intro m1 m2 h j
    rw [List.foldl_cons, List.foldl_cons]
    exact ih _ _ (deleteOpstampsStep_agree m1 m2 e h) j

theorem delete_meta_opstamps_agree (pages : List (List DeleteMetaEntry))
    (id : Nat) :
    delete_meta_opstamps pages id =
      (delete_meta_entries pages id).map (fun d => d.opstamp) := by
  rw [delete_meta_opstamps_eq_flatten, delete_meta_entries_eq_flatten]
  exact opstampsFold_agree pages.flatten (fun _ => none) (fun _ => none)
    (fun j => rfl) id

theorem mem_le_foldr_max {l : List Nat} {a : Nat} (h : a ∈ l) :
    a ≤ l.foldr max 0 := by
  induction l with
  | nil => cases h
  | cons b rest ih =>
    rw [List.foldr_cons]
    rcases List.mem_cons.mp h with rfl | h'
    · exact le_max_left _ _
    · exact le_trans (ih h') (le_max_right _ _)

/-- C1: with `solve_mvcc = true`, `load_metas` includes a segment-meta
entry in the assembled view exactly when the entry is visible under the
snapshot (`xmin` committed and visible, `xmax` invalid or not visible) —
the assembled segment list is literally the visible-filtered chain — and
an entry whose `xmax` committed strictly before the snapshot's start is
never visible, hence never included. -/
theorem load_metas_mvcc_spec (delete_pages : List (List DeleteMetaEntry))
    (segment_pages : List (List SegmentMetaEntry)) (snapshot : Snapshot)
    (recyclable : SegmentMetaEntry → Bool) (hwf : snapshot.WellFormed) :
    ((load_metas delete_pages segment_pages snapshot true recyclable).segments =
      (segment_pages.flatten.filter (fun e => e.visible snapshot)).map
        (fun e => { max_doc := e.max_doc, segment_id := e.segment_id,
                    deletes := delete_meta_entries delete_pages e.segment_id })) ∧
    (∀ e : SegmentMetaEntry, e.xmax ≠ invalidTransactionId →
      e.xmax ∈ snapshot.committedTxns → e.xmax < snapshot.start →
      e.visible snapshot = false ∧
      e ∉ segment_pages.flatten.filter (fun e' => e'.visible snapshot)) := by
  constructor
  · rw [load_metas_def]
    show (segment_pages.flatten.foldl _ ([], 0)).1 = _
    rw [segWalk_fst, segmentIncluded_true]
    simp
  · intro e hx hc hlt
    have hv : Snapshot.visibleTxn snapshot e.xmax = true := by
      have := hwf e.xmax hc hx hlt
      simp [Snapshot.visibleTxn, this]
    have hvis : e.visible snapshot = false := by
      simp [SegmentMetaEntry.visible, hv, hx]
    refine ⟨hvis, fun hmem => ?_⟩
    rw [List.mem_filter, hvis] at hmem
    exact Bool.noConfusion hmem.2

/-- C1 witness: a concrete entry whose `xmax` committed strictly before
the snapshot's start is invisible and filtered out. -/
theorem load_metas_mvcc_spec_witness :
    SegmentMetaEntry.visible
        { segment_id := 1, max_doc := 2, opstamp := 4, xmin := 3, xmax := 3 }
        { start := 10, visibleTxns := [3], committedTxns := [3] } = false ∧
    ({ segment_id := 1, max_doc := 2, opstamp := 4, xmin := 3, xmax := 3 } :
        SegmentMetaEntry) ∉
      ([[{ segment_id := 1, max_doc := 2, opstamp := 4, xmin := 3, xmax := 3 }]] :
          List (List SegmentMetaEntry)).flatten.filter
        (fun e' => e'.visible
          { start := 10, visibleTxns := [3], committedTxns := [3] }) :=
  (load_metas_mvcc_spec []
    [[{ segment_id := 1, max_doc := 2, opstamp := 4, xmin := 3, xmax := 3 }]]
    { start := 10, visibleTxns := [3], committedTxns := [3] }
    (fun _ => false) (by decide)).2
    { segment_id := 1, max_doc := 2, opstamp := 4, xmin := 3, xmax := 3 }
    (by decide) (by decide) (by decide)

/-- C4: the assembled opstamp equals the maximum, over the included
segment entries, of the entry's opstamp joined with the opstamp of the
folded delete meta attached to its segment id (0 when nothing is
included), and it is never smaller than the opstamp of any included
segment entry nor of any delete meta attached to an included entry. -/
theorem load_metas_opstamp_spec (delete_pages : List (List DeleteMetaEntry))
    (segment_pages : List (List SegmentMetaEntry)) (snapshot : Snapshot)
    (solve_mvcc : Bool) (recyclable : SegmentMetaEntry → Bool) :
    ((load_metas delete_pages segment_pages snapshot solve_mvcc
        recyclable).opstamp =
      ((segment_pages.flatten.filter
          (segmentIncluded snapshot solve_mvcc recyclable)).map
        (fun e => max e.opstamp
          (((delete_meta_entries delete_pages e.segment_id).map
            (fun d => d.opstamp)).getD 0))).foldr max 0) ∧
    (segment_pages.flatten.filter
        (segmentIncluded snapshot solve_mvcc recyclable) = [] →
      (load_metas delete_pages segment_pages snapshot solve_mvcc
        recyclable).opstamp = 0) ∧
    (∀ e ∈ segment_pages.flatten.filter
        (segmentIncluded snapshot solve_mvcc recyclable),
      e.opstamp ≤
        (load_metas delete_pages segment_pages snapshot solve_mvcc
          recyclable).opstamp) ∧
    (∀ e ∈ segment_pages.flatten.filter
        (segmentIncluded snapshot solve_mvcc recyclable),
      ∀ d, delete_meta_entries delete_pages e.segment_id = some d →
        d.opstamp ≤
          (load_metas delete_pages segment_pages snapshot solve_mvcc
            recyclable).opstamp) := by
  have hmain :
      (load_metas delete_pages segment_pages snapshot solve_mvcc
        recyclable).opstamp =
      ((segment_pages.flatten.filter
          (segmentIncluded snapshot solve_mvcc recyclable)).map
        (fun e => max e.opstamp
          (((delete_meta_entries delete_pages e.segment_id).map
            (fun d => d.opstamp)).getD 0))).foldr max 0 := by
    rw [load_metas_def]
    show (segment_pages.flatten.foldl _ ([], 0)).2 = _
    rw [segWalk_snd]
    have hfun :
        (segment_pages.flatten.filter
            (segmentIncluded snapshot solve_mvcc recyclable)).map
          (fun e => max e.opstamp
            ((delete_meta_opstamps delete_pages e.segment_id).getD 0)) =
        (segment_pages.flatten.filter
            (segmentIncluded snapshot solve_mvcc recyclable)).map
          (fun e => max e.opstamp
            (((delete_meta_entries delete_pages e.segment_id).map
              (fun d => d.opstamp)).getD 0)) := by
      refine List.map_congr_left (fun e he => ?_)
      rw [delete_meta_opstamps_agree]
    rw [hfun]
    omega
  refine ⟨hmain, ?_, ?_, ?_⟩
  · intro hempty
    rw [hmain, hempty]
    rfl
  · intro e he
    rw [hmain]
    have hmem : max e.opstamp
        (((delete_meta_entries delete_pages e.segment_id).map
          (fun d => d.opstamp)).getD 0) ∈
        (segment_pages.flatten.filter
            (segmentIncluded snapshot solve_mvcc recyclable)).map
          (fun x => max x.opstamp
            (((delete_meta_entries delete_pages x.segment_id).map
              (fun d => d.opstamp)).getD 0)) :=
      List.mem_map.mpr ⟨e, he, rfl⟩
    exact le_trans (le_max_left _ _) (mem_le_foldr_max hmem)
  · intro e he d hd
    rw [hmain]
    have hmem : max e.opstamp
        (((delete_meta_entries delete_pages e.segment_id).map
          (fun d => d.opstamp)).getD 0) ∈
        (segment_pages.flatten.filter
            (segmentIncluded snapshot solve_mvcc recyclable)).map
          (fun x => max x.opstamp
            (((delete_meta_entries delete_pages x.segment_id).map
              (fun d => d.opstamp)).getD 0)) :=
      List.mem_map.mpr ⟨e, he, rfl⟩
    have hdop : d.opstamp ≤ max e.opstamp
        (((delete_meta_entries delete_pages e.segment_id).map
          (fun d => d.opstamp)).getD 0) := by
      rw [hd]
      exact le_max_right _ _
    exact le_trans hdop (mem_le_foldr_max hmem)

/-- C4 witness: the included-entry lower bound evaluated on a concrete
one-entry chain. -/
theorem load_metas_opstamp_spec_witness :
    ({ segment_id := 1, max_doc := 2, opstamp := 4, xmin := 3, xmax := 0 } :
      SegmentMetaEntry).opstamp ≤
      (load_metas []
        [[{ segment_id := 1, max_doc := 2, opstamp := 4, xmin := 3, xmax := 0 }]]
        { start := 10, visibleTxns := [3], committedTxns := [3] }
        true (fun _ => false)).opstamp :=
  (load_metas_opstamp_spec []
    [[{ segment_id := 1, max_doc := 2, opstamp := 4, xmin := 3, xmax := 0 }]]
    { start := 10, visibleTxns := [3], committedTxns := [3] }
    true (fun _ => false)).2.2.1
    { segment_id := 1, max_doc := 2, opstamp := 4, xmin := 3, xmax := 0 }
    (by decide)

end Retake
